import Mathlib

/-!
Verification development for the TelenorNBIoT driver (`src/TelenorNBIoT.h`).

The repository ships only the header `TelenorNBIoT.h`: the class declaration,
the enums `power_save_mode` and `t_registrationStatus`, the constants
`BUFSIZE`/`MAXLINES`, and the private members (`_socket`, `lines`, helper
declarations such as `isOK`, `isError`, `splitFields`, `readCommand`,
`sendTo`).  The implementation file `TelenorNBIoT.cpp` is not present, so the
operational behaviour below is modelled from the specification (`spec.md`),
faithful to its words, with the header supplying names, types and constants.

Conventions of the shallow embedding:
* byte strings and reply lines are `List Char`;
* the module sitting on the other end of the serial link is not modelled as a
  process: each session operation takes the module's reply (a `Reply` outcome
  or the raw reply lines) as an explicit argument;
* the `int16_t _socket` member with its `-1` "absent" sentinel is modelled as
  `Option Nat`;
* operations that write to the Transport return the written bytes explicitly,
  so "no bytes emitted" is observable as `[]`.
-/

/-- Maximum input buffer size, from `#define BUFSIZE 255` in `TelenorNBIoT.h`. -/
def BUFSIZE : Nat := 255

/-- Maximum number of retained lines, from `#define MAXLINES 5` in `TelenorNBIoT.h`. -/
def MAXLINES : Nat := 5

/-- The power-save modes, from the `power_save_mode` enum in `TelenorNBIoT.h`. -/
inductive power_save_mode
  | psm_sleep_after_send
  | psm_sleep_after_response
  | psm_always_on
  deriving DecidableEq, Repr

/-- The registration states, from the `t_registrationStatus` enum in `TelenorNBIoT.h`. -/
inductive t_registrationStatus
  | RS_UNKNOWN
  | RS_NOT_REGISTERED
  | RS_REGISTERED
  | RS_REGISTERING
  | RS_DENIED
  deriving DecidableEq, Repr

/-- Modelled from the spec (data model, §3 "Reply"): the outcome of one
command round-trip — `ok`, `moduleError` with an optional numeric code, or
`timeout`.  The implementation (`TelenorNBIoT.cpp`) is absent from
the sources. -/
inductive Reply
  | ok
  | moduleError (code : Option Nat)
  | timeout
  deriving DecidableEq, Repr

/-- The session state, from the private members of class `TelenorNBIoT` in
`TelenorNBIoT.h`: `_socket : int16_t` (modelled as `Option Nat`, the `-1`
sentinel becoming `none`), the APN string, MCC/MNC, the power-save mode
`m_psm`, the Transport handle `ublox`, and (per spec §4.4) the
last-observed registration status. -/
structure Session where
  socket : Option Nat
  regStatus : t_registrationStatus
  apn : List Char
  mcc : Nat
  mnc : Nat
  psm : power_save_mode
  ublox : Nat
  deriving DecidableEq, Repr

/-- Boolean test that the first list is an initial segment of the second. -/
def hasPre : List Char → List Char → Bool
  | [], _ => true
  | _ :: _, [] => false
  | p :: ps, c :: cs => p == c && hasPre ps cs

/-- Parse a decimal-digit list into a natural number (the driver's uses of
`atoi` on reply fields). -/
def parseNat (s : List Char) : Nat :=
  s.foldl (fun a c => a * 10 + (c.toNat - 48)) 0

/-- Modelled from the spec (§4.2): a line exactly equal to `OK` is the
success terminator.  Declared as private member `isOK` in `TelenorNBIoT.h`;
its body (`TelenorNBIoT.cpp`) is absent. -/
def isOK (l : List Char) : Bool :=
  l == "OK".data

/-- Modelled from the spec (§4.2): a line beginning with `ERROR` or with
`+CME ERROR:` is an error terminator.  Declared as private member `isError`
in `TelenorNBIoT.h`; its body (`TelenorNBIoT.cpp`) is absent. -/
def isError (l : List Char) : Bool :=
  hasPre "ERROR".data l || hasPre "+CME ERROR:".data l

/-- Modelled from the spec (§4.2, §7): the numeric code of a `+CME ERROR:`
line, when present.  `TelenorNBIoT.cpp` is absent. -/
def cmeCode (l : List Char) : Option Nat :=
  if hasPre "+CME ERROR: ".data l then some (parseNat (l.drop 12)) else none

/-- Modelled from the spec (§4.2 Response Classifier): scan the accumulated
lines; an `ERROR`/`+CME ERROR` line means failure with its code captured,
otherwise a line exactly `OK` means success, otherwise the round-trip timed
out.  Unrecognized lines are skipped.  `TelenorNBIoT.cpp` is absent. -/
def classify (ls : List (List Char)) : Reply :=
  match ls.find? isError with
  | some l => Reply.moduleError (cmeCode l)
  | none => if ls.any isOK then Reply.ok else Reply.timeout

/-- Split a character list on commas; the accumulator holds the current field
reversed. -/
def splitAux : List Char → List Char → List (List Char)
  | [], cur => [cur.reverse]
  | c :: rest, cur =>
    if c == ',' then cur.reverse :: splitAux rest [] else splitAux rest (c :: cur)

/-- Strip one pair of surrounding double quotes from a field, when present. -/
def stripQuotes (f : List Char) : List Char :=
  match f with
  | '"' :: rest => if rest.getLast? == some '"' then rest.dropLast else f
  | _ => f

/-- Modelled from the spec (§4.2 Response Classifier): split the value portion
of a reply line on commas into fields, preserving empty fields and stripping
the surrounding quotes of quoted fields; no other trimming.  Declared as
private member `splitFields` in `TelenorNBIoT.h`; its body
(`TelenorNBIoT.cpp`) is absent. -/
def splitFields (l : List Char) : List (List Char) :=
  (splitAux l []).map stripQuotes

/-- Modelled from the spec (§4.1 Line Reader): append a byte to the current
line buffer; bytes beyond the `BUFSIZE − 1` bound are discarded.
`TelenorNBIoT.cpp` is absent. -/
def addByte (cur : List Char) (c : Char) : List Char :=
  if cur.length < BUFSIZE - 1 then cur ++ [c] else cur

/-- Modelled from the spec (§4.1 Line Reader): store a completed line; once
all `MAXLINES` slots are full, an additional line overwrites the last slot
rather than extending the count.  `TelenorNBIoT.cpp` is absent. -/
def pushLine (acc : List (List Char)) (l : List Char) : List (List Char) :=
  if acc.length < MAXLINES then acc ++ [l] else acc.dropLast ++ [l]

/-- Modelled from the spec (§4.1 Line Reader): consume the bytes delivered by
the Transport during one round-trip, terminating a line on a line feed,
discarding carriage returns, bounding every line and the line count.
`TelenorNBIoT.cpp` is absent. -/
def readLines : List Char → List Char → List (List Char) → List (List Char)
  | [], _, acc => acc
  | c :: rest, cur, acc =>
    if c == '\n' then readLines rest [] (pushLine acc cur)
    else if c == '\r' then readLines rest cur acc
    else readLines rest (addByte cur c) acc

/-- Modelled from the spec (§4.1): one `readCommand` round-trip over the byte
stream delivered by the Transport, yielding the Line Buffer Set.  Declared as
private member `readCommand` in `TelenorNBIoT.h`; its body
(`TelenorNBIoT.cpp`) is absent. -/
def readCommand (input : List Char) : List (List Char) :=
  readLines input [] []

/-- Uppercase hexadecimal digit of a value below 16. -/
def hexDigit (n : Nat) : Char :=
  if n < 10 then Char.ofNat (48 + n) else Char.ofNat (55 + n)

/-- Modelled from the spec (§4.3 Command Engine): payload bytes sent as data
are hex-encoded two characters per byte, uppercase, no separators.
`TelenorNBIoT.cpp` is absent. -/
def hexEncode : List Char → List Char
  | [] => []
  | c :: cs => hexDigit (c.toNat / 16) :: hexDigit (c.toNat % 16) :: hexEncode cs

/-- Numeric value of one hexadecimal digit character. -/
def hexDigitVal (c : Char) : Nat :=
  if 48 ≤ c.toNat ∧ c.toNat ≤ 57 then c.toNat - 48
  else if 65 ≤ c.toNat ∧ c.toNat ≤ 70 then c.toNat - 55
  else 0

/-- Modelled from the spec (§4.5, §8): decode the hex payload field of a
receive reply back to bytes, two characters per byte.
`TelenorNBIoT.cpp` is absent. -/
def hexDecode : List Char → List Char
  | c1 :: c2 :: rest => Char.ofNat (16 * hexDigitVal c1 + hexDigitVal c2) :: hexDecode rest
  | _ => []

/-- One unit more than the largest unsigned 64-bit integer. -/
def U64 : Nat := 2 ^ 64

/-- Digits of `n`, most significant first, by fuel-bounded division;
empty on `n = 0`. -/
def toDecAux : Nat → Nat → List Char
  | 0, _ => []
  | fuel + 1, n =>
    if n = 0 then [] else toDecAux fuel (n / 10) ++ [Char.ofNat (48 + n % 10)]

/-- Modelled from the spec (§4.7 Codec helpers, `int64ToDecimal`): convert an
unsigned 64-bit integer to its decimal-digit string, no sign, no locale, no
grouping.  Declared in `TelenorNBIoT.h` as `i64toa`; its body
(`TelenorNBIoT.cpp`) is absent.  Twenty digits of fuel cover the full
`uint64` range. -/
def i64toa (v : Nat) : List Char :=
  if v % U64 = 0 then ['0'] else toDecAux 20 (v % U64)

/-- Modelled from the spec (§4.7 Codec helpers, `decimalToInt64`): parse a
decimal-digit string into an unsigned 64-bit integer, accumulating in 64-bit
arithmetic.  Declared in `TelenorNBIoT.h` as `atoi64`; its body
(`TelenorNBIoT.cpp`) is absent. -/
def atoi64 (s : List Char) : Nat :=
  s.foldl (fun a c => (a * 10 + (c.toNat - 48)) % U64) 0

/-- Modelled from the spec (§4.5): `closeSocket` issues the close command and,
regardless of the module-reported outcome `r`, clears the session's socket
handle; the command's own failure is still reported to the caller.  Declared
in `TelenorNBIoT.h` as `closeSocket`; its body (`TelenorNBIoT.cpp`) is
absent. -/
def closeSocket (s : Session) (r : Reply) : Bool × Session :=
  ((match r with | Reply.ok => true | _ => false), { s with socket := none })

/-- A reply line that is a bare decimal number (the socket id line of the
open-socket command). -/
def isDigitsLine (l : List Char) : Bool :=
  !l.isEmpty && l.all (fun c => 48 ≤ c.toNat && c.toNat ≤ 57)

/-- Modelled from the spec (§4.5): `createSocket` fails if a socket is already
open (at-most-one invariant, handle untouched); otherwise it issues the open
command and, when the reply lines `ls` contain a numeric socket id, stores
that id as the handle and succeeds.  Declared in `TelenorNBIoT.h` as
`createSocket`; its body (`TelenorNBIoT.cpp`) is absent. -/
def createSocket (s : Session) (ls : List (List Char)) : Bool × Session :=
  match s.socket with
  | some _ => (false, s)
  | none =>
    match ls.find? isDigitsLine with
    | some l => (true, { s with socket := some (parseNat l) })
    | none => (false, s)

/-- Modelled from the spec (§4.4, §8): map the `<stat>` code of a
`+CEREG: <n>,<stat>` reply to the five-valued registration enum.
`TelenorNBIoT.cpp` is absent. -/
def mapRegStatus (code : Nat) : t_registrationStatus :=
  match code with
  | 0 => t_registrationStatus.RS_NOT_REGISTERED
  | 1 => t_registrationStatus.RS_REGISTERED
  | 2 => t_registrationStatus.RS_REGISTERING
  | 3 => t_registrationStatus.RS_DENIED
  | _ => t_registrationStatus.RS_UNKNOWN

/-- Modelled from the spec (§4.4): extract the registration status from the
reply line of the status-query command. `TelenorNBIoT.cpp` is absent. -/
def regStatusOfLine (line : List Char) : t_registrationStatus :=
  if hasPre "+CEREG: ".data line then
    match splitFields (line.drop 8) with
    | _ :: stat :: _ => mapRegStatus (parseNat stat)
    | _ => t_registrationStatus.RS_UNKNOWN
  else t_registrationStatus.RS_UNKNOWN

/-- Modelled from the spec (§4.4): `registrationStatus` issues the status
query, maps the numeric code of the reply line to the five-valued enum and
returns it, updating only the session's last-observed registration status.
Declared in `TelenorNBIoT.h` as `registrationStatus`; its body
(`TelenorNBIoT.cpp`) is absent. -/
def registrationStatus (s : Session) (line : List Char) :
    t_registrationStatus × Session :=
  let st := regStatusOfLine line
  (st, { s with regStatus := st })

/-- Modelled from the spec (§6): the framing of the send-datagram command,
everything before the hex payload: `AT+NSOST=<sockid>,<ip>,<port>,<len>,`.
`TelenorNBIoT.cpp` is absent. -/
def nsostHead (sock : Nat) (ip : List Char) (port : Nat) (payload : List Char) :
    List Char :=
  "AT+NSOST=".data ++ i64toa sock ++ [','] ++ ip ++ [','] ++ i64toa port ++ [','] ++
    i64toa payload.length ++ [',']

/-- Modelled from the spec (§4.3, §6): the full text of one send-datagram
command, the payload hex-encoded two uppercase characters per byte with no
separators.  `TelenorNBIoT.cpp` is absent. -/
def formatNSOST (sock : Nat) (ip : List Char) (port : Nat) (payload : List Char) :
    List Char :=
  nsostHead sock ip port payload ++ hexEncode payload

/-- Modelled from the spec (§4.5): `sendBytes` fails when no socket is open or
when `len` exceeds the per-datagram ceiling `ceil` — both checked before any
formatting, so in those cases nothing at all is written to the Transport
(second component `[]`); otherwise the formatted command is written and the
module's reply decides the result.  Declared in `TelenorNBIoT.h` as
`sendBytes`; its body (`TelenorNBIoT.cpp`) is absent, and the spec leaves the
numeric ceiling symbolic ("derived from the module's fixed command-line
length"), so it is a parameter here. -/
def sendBytes (ceil : Nat) (s : Session) (ip : List Char) (port : Nat)
    (data : List Char) (len : Nat) (r : Reply) : Bool × List Char :=
  match s.socket with
  | none => (false, [])
  | some sock =>
    if ceil < len then (false, [])
    else
      ((match r with | Reply.ok => true | _ => false),
        formatNSOST sock ip port (data.take len) ++ ['\r', '\n'])

/-- Modelled from the header's declaration of `sendString` ("Send a string as
a UDP packet to remote IP address"): the string variant passes the string's
character sequence and length to `sendBytes`.  `TelenorNBIoT.cpp` is
absent. -/
def sendString (ceil : Nat) (s : Session) (ip : List Char) (port : Nat)
    (str : List Char) (r : Reply) : Bool × List Char :=
  sendBytes ceil s ip port str str.length r

/-- Modelled from the spec (§4.5, §6, §8): `receiveFrom` parses the
six-field reply `<sockid>,<ip>,<port>,<len>,<hexdata>,<remaining>` of the
read-socket-data command, yielding the origin endpoint, the hex-decoded
bytes, and the remaining-bytes count.  Declared in `TelenorNBIoT.h` as
`receiveFrom`; its body (`TelenorNBIoT.cpp`) is absent. -/
def receiveFrom (line : List Char) : Option (List Char × Nat × List Char × Nat) :=
  match splitFields line with
  | [_, ip, port, _, hexdata, remain] =>
    some (ip, parseNat port, hexDecode hexdata, parseNat remain)
  | _ => none

/-! ### C1: `closeSocket` clears the handle unconditionally -/

/-- C1: for every session state and every module reply — `ok`, an error, or a
timeout — `closeSocket` clears the stored socket handle, while its boolean
result reports the command's own outcome (true exactly on an `OK` reply); no
other session field changes. -/
theorem closeSocket_clears_handle_reports_failure (s : Session) (r : Reply) :
    (closeSocket s r).2.socket = none ∧
      ((closeSocket s r).1 = true ↔ r = Reply.ok) ∧
      (closeSocket s r).2.regStatus = s.regStatus ∧
      (closeSocket s r).2.apn = s.apn ∧
      (closeSocket s r).2.psm = s.psm := by
  refine ⟨rfl, ?_, rfl, rfl, rfl⟩
  cases r <;> simp [closeSocket]

/-! ### C2: `createSocket` and the at-most-one-socket invariant -/

/-- C2: when a socket handle is already present, `createSocket` fails and
leaves the session — in particular the stored handle — unchanged; when no
handle is present and the reply lines contain a numeric socket id,
`createSocket` succeeds and stores that id, so the at-most-one-open-socket
invariant is preserved by the operation. -/
theorem createSocket_invariant (s : Session) (ls : List (List Char)) :
    (∀ k, s.socket = some k → createSocket s ls = (false, s)) ∧
      (∀ l, s.socket = none → ls.find? isDigitsLine = some l →
        createSocket s ls = (true, { s with socket := some (parseNat l) })) := by
  constructor
  · intro k hk
    unfold createSocket
    rw [hk]
  · intro l hnone hfind
    unfold createSocket
    rw [hnone, hfind]

/-- Witness for C2 at concrete sessions: a session holding handle `1` rejects
a second `createSocket` untouched, and a fresh session adopts the numeric id
of the reply line `1`. -/
theorem createSocket_invariant_witness :
    createSocket
        { socket := some 1, regStatus := t_registrationStatus.RS_UNKNOWN,
          apn := [], mcc := 0, mnc := 0,
          psm := power_save_mode.psm_always_on, ublox := 0 } ["1".data] =
      (false,
        { socket := some 1, regStatus := t_registrationStatus.RS_UNKNOWN,
          apn := [], mcc := 0, mnc := 0,
          psm := power_save_mode.psm_always_on, ublox := 0 }) ∧
      createSocket
          { socket := none, regStatus := t_registrationStatus.RS_UNKNOWN,
            apn := [], mcc := 0, mnc := 0,
            psm := power_save_mode.psm_always_on, ublox := 0 } ["1".data] =
        (true,
          { socket := some (parseNat "1".data),
            regStatus := t_registrationStatus.RS_UNKNOWN,
            apn := [], mcc := 0, mnc := 0,
            psm := power_save_mode.psm_always_on, ublox := 0 }) :=
  ⟨(createSocket_invariant _ _).1 1 rfl,
    (createSocket_invariant _ _).2 "1".data rfl (by decide)⟩

/-! ### C7: `registrationStatus` maps the code and mutates nothing else -/

/-- C7: `registrationStatus` maps the `<stat>` code of the `+CEREG` reply to
the registration enum — `1` to Registered, `2` to Registering, `3` to
Denied — and updates no session field other than the last-observed
registration status: socket handle, APN, MCC/MNC, power-save mode and
transport handle are unchanged. -/
theorem registrationStatus_maps_and_mutates_nothing_else (s : Session) :
    (registrationStatus s "+CEREG: 2,1".data).1 =
        t_registrationStatus.RS_REGISTERED ∧
      (registrationStatus s "+CEREG: 2,2".data).1 =
        t_registrationStatus.RS_REGISTERING ∧
      (registrationStatus s "+CEREG: 2,3".data).1 =
        t_registrationStatus.RS_DENIED ∧
      ∀ line,
        (registrationStatus s line).2.socket = s.socket ∧
          (registrationStatus s line).2.apn = s.apn ∧
          (registrationStatus s line).2.mcc = s.mcc ∧
          (registrationStatus s line).2.mnc = s.mnc ∧
          (registrationStatus s line).2.psm = s.psm ∧
          (registrationStatus s line).2.ublox = s.ublox ∧
          (registrationStatus s line).2.regStatus = (registrationStatus s line).1 :=
  ⟨rfl, rfl, rfl, fun _ => ⟨rfl, rfl, rfl, rfl, rfl, rfl, rfl⟩⟩

/-! ### C10: `sendString` is an exact wrapper over `sendBytes` -/

/-- C10: for every ceiling, session, remote IP, port, string and module
reply, `sendString` returns the same result and writes the same bytes to the
Transport as `sendBytes` applied to the string's character sequence and
length. -/
theorem sendString_eq_sendBytes (ceil : Nat) (s : Session) (ip : List Char)
    (port : Nat) (str : List Char) (r : Reply) :
    sendString ceil s ip port str r = sendBytes ceil s ip port str str.length r :=
  rfl

/-! ### C4: Response Classifier outcomes -/

/-- C4: over one round-trip's line sequence, a line exactly `OK` with no
ERROR line anywhere yields success; a `+CME ERROR: 8` line (the sequence's
only error content) yields failure with code 8 captured; no OK and no ERROR
line yields the distinct Timeout outcome — unrecognized lines never stop the
scan or raise an error. -/
theorem classify_ok_error_timeout (ls : List (List Char)) :
    ("OK".data ∈ ls → (∀ l ∈ ls, isError l = false) → classify ls = Reply.ok) ∧
      ("+CME ERROR: 8".data ∈ ls →
        (∀ l ∈ ls, isError l = true → l = "+CME ERROR: 8".data) →
        classify ls = Reply.moduleError (some 8)) ∧
      ((∀ l ∈ ls, isOK l = false ∧ isError l = false) →
        classify ls = Reply.timeout) := by
  refine ⟨?_, ?_, ?_⟩
  · intro hOK hNoErr
    have hfind : ls.find? isError = none :=
      List.find?_eq_none.mpr (fun x hx => by simp [hNoErr x hx])
    have hany : ls.any isOK = true :=
      List.any_eq_true.mpr ⟨"OK".data, hOK, by decide⟩
    simp [classify, hfind, hany]
  · intro hMem hOnly
    have hsome : (ls.find? isError).isSome :=
      List.find?_isSome.mpr ⟨"+CME ERROR: 8".data, hMem, by decide⟩
    obtain ⟨l0, hl0⟩ := Option.isSome_iff_exists.mp hsome
    have heq : l0 = "+CME ERROR: 8".data :=
      hOnly l0 (List.mem_of_find?_eq_some hl0) (List.find?_some hl0)
    rw [heq] at hl0
    simp [classify, hl0]
    decide
  · intro hNone
    have hfind : ls.find? isError = none :=
      List.find?_eq_none.mpr (fun x hx => by simp [(hNone x hx).2])
    have hany : ls.any isOK = false := by
      simp only [List.any_eq_false]
      intro x hx
      simp [(hNone x hx).1]
    simp [classify, hfind, hany]

/-- Witness for C4 on concrete sequences: banner noise plus `OK` classifies
as success, a `+CME ERROR: 8` line classifies as failure with code 8, and a
sequence of only unrecognized lines classifies as timeout. -/
theorem classify_ok_error_timeout_witness :
    classify ["banner".data, [], "OK".data] = Reply.ok ∧
      classify ["banner".data, "+CME ERROR: 8".data] = Reply.moduleError (some 8) ∧
      classify ["banner".data, []] = Reply.timeout :=
  ⟨(classify_ok_error_timeout _).1 (by decide) (by decide),
    (classify_ok_error_timeout _).2.1 (by decide) (by decide),
    (classify_ok_error_timeout _).2.2 (by decide)⟩

/-! ### C5: `sendBytes` preconditions stop any emission -/

/-- C5: whenever no socket is open, or the requested length exceeds the
per-datagram ceiling, `sendBytes` fails and writes no bytes at all to the
Transport — the checks precede any command formatting or emission. -/
theorem sendBytes_precondition_no_emit (ceil : Nat) (s : Session)
    (ip : List Char) (port : Nat) (data : List Char) (len : Nat) (r : Reply)
    (h : s.socket = none ∨ ceil < len) :
    sendBytes ceil s ip port data len r = (false, []) := by
  rcases h with h | h
  · simp [sendBytes, h]
  · cases hs : s.socket with
    | none => simp [sendBytes, hs]
    | some sock => simp [sendBytes, hs, h]

/-- Witness for C5: with no open socket, a concrete send fails with nothing
written to the Transport. -/
theorem sendBytes_precondition_no_emit_witness :
    sendBytes 512
        { socket := none, regStatus := t_registrationStatus.RS_UNKNOWN,
          apn := [], mcc := 0, mnc := 0,
          psm := power_save_mode.psm_always_on, ublox := 0 }
        "10.0.0.1".data 4242 "x".data 1 Reply.ok = (false, []) :=
  sendBytes_precondition_no_emit 512 _ _ 4242 _ 1 Reply.ok (Or.inl rfl)

/-! ### C6: `splitFields` -/

/-- The number of fields produced by the comma split is the comma count plus
one, for any accumulator. -/
theorem splitAux_length (l : List Char) :
    ∀ cur, (splitAux l cur).length = l.count ',' + 1 := by
  induction l with
  | nil => intro cur; simp [splitAux]
  | cons c rest ih =>
    intro cur
    by_cases hc : c = ','
    · subst hc
      simp [splitAux, ih, List.count_cons]
    · simp [splitAux, hc, ih, List.count_cons]

/-- A comma-free input is kept as one single field, the accumulator included. -/
theorem splitAux_no_comma (l : List Char) :
    ∀ cur, l.count ',' = 0 → splitAux l cur = [cur.reverse ++ l] := by
  induction l with
  | nil => intro cur _; simp [splitAux]
  | cons c rest ih =>
    intro cur h
    have hc : ¬ c = ',' := by
      intro e
      subst e
      simp [List.count_cons] at h
    have hr : rest.count ',' = 0 := by
      simp [List.count_cons, hc] at h
      exact h
    simp [splitAux, hc, ih (c :: cur) hr]

/-- C6: `splitFields` on `1,"10.0.0.1",4242,5,AABBCCDDEE,0` yields exactly
six fields in order with the quoted field's quotes stripped; in general the
field count is the comma count plus one, empty fields are preserved as empty
strings, and a delimiter-free input is returned whole (no trimming beyond
the defined delimiters). -/
theorem splitFields_spec :
    splitFields "1,\"10.0.0.1\",4242,5,AABBCCDDEE,0".data =
        ["1".data, "10.0.0.1".data, "4242".data, "5".data, "AABBCCDDEE".data,
          "0".data] ∧
      (∀ l : List Char, (splitFields l).length = l.count ',' + 1) ∧
      splitFields "a,,b".data = ["a".data, [], "b".data] ∧
      (∀ l : List Char, l.count ',' = 0 → splitFields l = [stripQuotes l]) := by
  refine ⟨by decide, ?_, by decide, ?_⟩
  · intro l
    simp [splitFields, splitAux_length]
  · intro l h
    simp [splitFields, splitAux_no_comma l [] h]

/-- Witness for C6 on a concrete comma-free input: the single field comes
back untrimmed. -/
theorem splitFields_spec_witness :
    "ABC".data.count ',' = 0 ∧ splitFields "ABC".data = [stripQuotes "ABC".data] :=
  ⟨by decide, splitFields_spec.2.2.2 "ABC".data (by decide)⟩

/-! ### C3: decimal-string / uint64 round-trip -/

/-- The plain decimal fold never falls below its accumulator. -/
theorem parseNat_foldl_ge (s : List Char) :
    ∀ acc, acc ≤ s.foldl (fun a c => a * 10 + (c.toNat - 48)) acc := by
  induction s with
  | nil => intro acc; simp
  | cons c cs ih =>
    intro acc
    calc acc ≤ acc * 10 + (c.toNat - 48) := by omega
      _ ≤ cs.foldl (fun a c => a * 10 + (c.toNat - 48)) (acc * 10 + (c.toNat - 48)) :=
        ih _
      _ = (c :: cs).foldl (fun a c => a * 10 + (c.toNat - 48)) acc := rfl

/-- While the plain decimal fold stays below `2 ^ 64`, the 64-bit fold agrees
with it: every intermediate reduction modulo `U64` is the identity. -/
theorem foldl_mod_eq_foldl (s : List Char) :
    ∀ acc, s.foldl (fun a c => a * 10 + (c.toNat - 48)) acc < U64 →
      s.foldl (fun a c => (a * 10 + (c.toNat - 48)) % U64) acc =
        s.foldl (fun a c => a * 10 + (c.toNat - 48)) acc := by
  induction s with
  | nil => intro acc _; rfl
  | cons c cs ih =>
    intro acc h
    have hstep : acc * 10 + (c.toNat - 48) ≤
        cs.foldl (fun a c => a * 10 + (c.toNat - 48)) (acc * 10 + (c.toNat - 48)) :=
      parseNat_foldl_ge cs _
    have hlt : acc * 10 + (c.toNat - 48) < U64 := lt_of_le_of_lt hstep h
    show cs.foldl (fun a c => (a * 10 + (c.toNat - 48)) % U64)
        ((acc * 10 + (c.toNat - 48)) % U64) = _
    rw [Nat.mod_eq_of_lt hlt]
    exact ih _ h

/-- Fuel-bounded digit emission is left inverse to the decimal fold: for `n`
within the fuel's range the emitted digits parse back to `n`. -/
theorem toDecAux_parseNat :
    ∀ fuel, ∀ n, n < 10 ^ fuel → parseNat (toDecAux fuel n) = n := by
  intro fuel
  induction fuel with
  | zero =>
    intro n h
    have : n = 0 := by simpa using h
    subst this
    rfl
  | succ fuel ih =>
    intro n h
    by_cases h0 : n = 0
    · subst h0; rfl
    · have hdiv : n / 10 < 10 ^ fuel := by
        rw [Nat.div_lt_iff_lt_mul (by norm_num : 0 < 10)]
        calc n < 10 ^ (fuel + 1) := h
          _ = 10 ^ fuel * 10 := by rw [pow_succ]
      have hd : ∀ d, d < 10 → (Char.ofNat (48 + d)).toNat = 48 + d := by decide
      have hstep : toDecAux (fuel + 1) n =
          toDecAux fuel (n / 10) ++ [Char.ofNat (48 + n % 10)] := by
        simp [toDecAux, h0]
      rw [hstep]
      unfold parseNat
      rw [List.foldl_append]
      show parseNat (toDecAux fuel (n / 10)) * 10 +
          ((Char.ofNat (48 + n % 10)).toNat - 48) = n
      rw [ih (n / 10) hdiv, hd (n % 10) (by omega)]
      omega

/-- The fuel bounds the number of emitted digits. -/
theorem toDecAux_len : ∀ fuel n, (toDecAux fuel n).length ≤ fuel := by
  intro fuel
  induction fuel with
  | zero => intro n; simp [toDecAux]
  | succ fuel ih =>
    intro n
    by_cases h0 : n = 0
    · subst h0; simp [toDecAux]
    · show (if n = 0 then [] else
          toDecAux fuel (n / 10) ++ [Char.ofNat (48 + n % 10)]).length ≤ fuel + 1
      rw [if_neg h0]
      have := ih (n / 10)
      simp only [List.length_append, List.length_cons, List.length_nil]
      omega

/-- Every emitted character is a decimal digit — no sign, no grouping. -/
theorem toDecAux_digits :
    ∀ fuel n, ∀ c ∈ toDecAux fuel n, 48 ≤ c.toNat ∧ c.toNat ≤ 57 := by
  intro fuel
  induction fuel with
  | zero => intro n c hc; simp [toDecAux] at hc
  | succ fuel ih =>
    intro n c hc
    by_cases h0 : n = 0
    · subst h0; simp [toDecAux] at hc
    · rw [show toDecAux (fuel + 1) n = (if n = 0 then [] else
          toDecAux fuel (n / 10) ++ [Char.ofNat (48 + n % 10)]) from rfl,
        if_neg h0] at hc
      rcases List.mem_append.mp hc with h1 | h1
      · exact ih (n / 10) c h1
      · have hd : ∀ d, d < 10 → (Char.ofNat (48 + d)).toNat = 48 + d := by decide
        have : c = Char.ofNat (48 + n % 10) := by simpa using h1
        subst this
        rw [hd (n % 10) (by omega)]
        omega

/-- C3: for every unsigned 64-bit integer `u`, converting with `i64toa` and
back with `atoi64` returns `u` — a lossless round-trip over the full
`uint64` range — and the emitted string is at most 20 characters, all of
them decimal digits (no sign, locale or grouping handling). -/
theorem atoi64_i64toa_roundtrip (u : Nat) (h : u < 2 ^ 64) :
    atoi64 (i64toa u) = u ∧ (i64toa u).length ≤ 20 ∧
      ∀ c ∈ i64toa u, 48 ≤ c.toNat ∧ c.toNat ≤ 57 := by
  have hU : u % U64 = u := Nat.mod_eq_of_lt h
  by_cases h0 : u = 0
  · subst h0
    exact ⟨by decide, by decide, by decide⟩
  · have hne : ¬ u % U64 = 0 := by rw [hU]; exact h0
    have hrepr : i64toa u = toDecAux 20 u := by
      unfold i64toa
      rw [if_neg hne, hU]
    have h20 : u < 10 ^ 20 := lt_trans h (by norm_num)
    have hval : parseNat (toDecAux 20 u) = u := toDecAux_parseNat 20 u h20
    refine ⟨?_, ?_, ?_⟩
    · rw [hrepr]
      have hlt : (toDecAux 20 u).foldl (fun a c => a * 10 + (c.toNat - 48)) 0 < U64 := by
        show parseNat (toDecAux 20 u) < U64
        rw [hval]
        show u < 2 ^ 64
        exact h
      show (toDecAux 20 u).foldl (fun a c => (a * 10 + (c.toNat - 48)) % U64) 0 = u
      rw [foldl_mod_eq_foldl (toDecAux 20 u) 0 hlt]
      exact hval
    · rw [hrepr]; exact toDecAux_len 20 u
    · rw [hrepr]; exact toDecAux_digits 20 u

/-- Witness for C3 at the largest unsigned 64-bit integer. -/
theorem atoi64_i64toa_roundtrip_witness :
    18446744073709551615 < 2 ^ 64 ∧
      (atoi64 (i64toa 18446744073709551615) = 18446744073709551615 ∧
        (i64toa 18446744073709551615).length ≤ 20 ∧
        ∀ c ∈ i64toa 18446744073709551615, 48 ≤ c.toNat ∧ c.toNat ≤ 57) :=
  ⟨by norm_num, atoi64_i64toa_roundtrip 18446744073709551615 (by norm_num)⟩

/-! ### C8: Line Reader bounds -/

/-- Appending a byte respects the `BUFSIZE − 1` line bound. -/
theorem addByte_length (cur : List Char) (c : Char)
    (h : cur.length ≤ BUFSIZE - 1) : (addByte cur c).length ≤ BUFSIZE - 1 := by
  by_cases h1 : cur.length < BUFSIZE - 1
  · simp only [addByte, if_pos h1, List.length_append, List.length_cons,
      List.length_nil]
    omega
  · simpa only [addByte, if_neg h1] using h

/-- Storing a bounded line keeps every retained line bounded. -/
theorem pushLine_mem (acc : List (List Char)) (l0 : List Char) (B : Nat)
    (ha : ∀ l ∈ acc, l.length ≤ B) (h0 : l0.length ≤ B) :
    ∀ l ∈ pushLine acc l0, l.length ≤ B := by
  intro l hl
  unfold pushLine at hl
  by_cases hlen : acc.length < MAXLINES
  · rw [if_pos hlen] at hl
    rcases List.mem_append.mp hl with h | h
    · exact ha l h
    · have : l = l0 := by simpa using h
      subst this
      exact h0
  · rw [if_neg hlen] at hl
    rcases List.mem_append.mp hl with h | h
    · exact ha l (List.dropLast_subset acc h)
    · have : l = l0 := by simpa using h
      subst this
      exact h0

/-- Storing a line never pushes the retained count above `MAXLINES`. -/
theorem pushLine_length (acc : List (List Char)) (l0 : List Char)
    (h : acc.length ≤ MAXLINES) : (pushLine acc l0).length ≤ MAXLINES := by
  unfold pushLine
  by_cases hlen : acc.length < MAXLINES
  · rw [if_pos hlen]
    simp only [List.length_append, List.length_cons, List.length_nil]
    omega
  · rw [if_neg hlen]
    simp only [List.length_append, List.length_dropLast, List.length_cons,
      List.length_nil]
    simp only [MAXLINES] at h ⊢
    omega

/-- Invariant of the Line Reader loop: a bounded current line and a bounded
accumulator stay bounded through the whole byte stream. -/
theorem readLines_bounds (input : List Char) :
    ∀ (cur : List Char) (acc : List (List Char)),
      cur.length ≤ BUFSIZE - 1 →
      (∀ l ∈ acc, l.length ≤ BUFSIZE - 1) →
      acc.length ≤ MAXLINES →
      (∀ l ∈ readLines input cur acc, l.length ≤ BUFSIZE - 1) ∧
        (readLines input cur acc).length ≤ MAXLINES := by
  induction input with
  | nil =>
    intro cur acc _ ha hn
    exact ⟨ha, hn⟩
  | cons c rest ih =>
    intro cur acc hc ha hn
    by_cases h1 : (c == '\n') = true
    · have he : readLines (c :: rest) cur acc =
          readLines rest [] (pushLine acc cur) := by
        simp [readLines, h1]
      rw [he]
      exact ih [] (pushLine acc cur) (by simp)
        (pushLine_mem acc cur (BUFSIZE - 1) ha hc) (pushLine_length acc cur hn)
    · by_cases h2 : (c == '\r') = true
      · have he : readLines (c :: rest) cur acc = readLines rest cur acc := by
          simp [readLines, h1, h2]
        rw [he]
        exact ih cur acc hc ha hn
      · have he : readLines (c :: rest) cur acc =
            readLines rest (addByte cur c) acc := by
          simp [readLines, h1, h2]
        rw [he]
        exact ih (addByte cur c) acc (addByte_length cur c hc) ha hn

/-- C8: over any byte stream delivered by the Transport in one round-trip,
every line stored by `readCommand` holds at most `BUFSIZE − 1` bytes and at
most `MAXLINES` lines are retained; and once all `MAXLINES` slots are full,
storing a further line keeps the count at `MAXLINES`, puts the new line in
the last slot, and leaves the earlier slots untouched. -/
theorem readCommand_bounds (input : List Char) :
    (∀ l ∈ readCommand input, l.length ≤ BUFSIZE - 1) ∧
      (readCommand input).length ≤ MAXLINES ∧
      ∀ (acc : List (List Char)) (l : List Char), acc.length = MAXLINES →
        (pushLine acc l).length = MAXLINES ∧
          (pushLine acc l).getLast? = some l ∧
          (pushLine acc l).take (MAXLINES - 1) = acc.take (MAXLINES - 1) := by
  have h := readLines_bounds input [] [] (by simp) (by simp) (by simp)
  refine ⟨h.1, h.2, ?_⟩
  intro acc l hlen
  have hnot : ¬ acc.length < MAXLINES := by omega
  unfold pushLine
  rw [if_neg hnot]
  refine ⟨?_, by simp, ?_⟩
  · simp only [List.length_append, List.length_dropLast, List.length_cons,
      List.length_nil, hlen]
    show MAXLINES - 1 + 1 = MAXLINES
    decide
  · have hdl : acc.dropLast.length = MAXLINES - 1 := by
      simp [hlen]
    calc (acc.dropLast ++ [l]).take (MAXLINES - 1)
        = (acc.dropLast ++ [l]).take acc.dropLast.length := by rw [hdl]
      _ = acc.dropLast := List.take_left _ _
      _ = acc.take (acc.length - 1) := List.dropLast_eq_take acc
      _ = acc.take (MAXLINES - 1) := by rw [hlen]

/-- Witness for C8: the line read from a concrete stream is within the
bound, and storing a sixth line into five full slots keeps five lines with
the new line last and the first four untouched. -/
theorem readCommand_bounds_witness :
    "OK".data.length ≤ BUFSIZE - 1 ∧
      ((pushLine [[], [], [], [], []] "X".data).length = MAXLINES ∧
        (pushLine [[], [], [], [], []] "X".data).getLast? = some "X".data ∧
        (pushLine [[], [], [], [], []] "X".data).take (MAXLINES - 1) =
          ([[], [], [], [], []] : List (List Char)).take (MAXLINES - 1)) :=
  ⟨(readCommand_bounds "OK\r\n".data).1 "OK".data (by decide),
    (readCommand_bounds []).2.2 [[], [], [], [], []] "X".data (by decide)⟩

/-! ### C9: hex wire codec -/

/-- Decoding inverts encoding on a single hexadecimal digit. -/
theorem hexDigitVal_hexDigit : ∀ d, d < 16 → hexDigitVal (hexDigit d) = d := by
  decide

/-- Every emitted digit character is uppercase hexadecimal. -/
theorem hexDigit_mem_alphabet :
    ∀ d, d < 16 → hexDigit d ∈ "0123456789ABCDEF".data := by
  decide

/-- Hex decoding is left inverse to hex encoding on byte-valued characters. -/
theorem hexDecode_hexEncode (data : List Char)
    (h : ∀ c ∈ data, c.toNat < 256) : hexDecode (hexEncode data) = data := by
  induction data with
  | nil => rfl
  | cons c cs ih =>
    have hc : c.toNat < 256 := h c (by simp)
    show Char.ofNat (16 * hexDigitVal (hexDigit (c.toNat / 16)) +
        hexDigitVal (hexDigit (c.toNat % 16))) :: hexDecode (hexEncode cs) =
      c :: cs
    rw [hexDigitVal_hexDigit _ (by omega), hexDigitVal_hexDigit _ (by omega),
      Nat.div_add_mod, Char.ofNat_toNat,
      ih (fun x hx => h x (by simp [hx]))]

/-- Hex encoding emits exactly two characters per byte. -/
theorem hexEncode_length (data : List Char) :
    (hexEncode data).length = 2 * data.length := by
  induction data with
  | nil => rfl
  | cons c cs ih =>
    show (hexEncode cs).length + 1 + 1 = 2 * (cs.length + 1)
    omega

/-- Every character of a hex encoding is an uppercase hexadecimal digit — no
separators, no lowercase. -/
theorem hexEncode_mem (data : List Char) (h : ∀ c ∈ data, c.toNat < 256) :
    ∀ x ∈ hexEncode data, x ∈ "0123456789ABCDEF".data := by
  induction data with
  | nil => intro x hx; simp [hexEncode] at hx
  | cons c cs ih =>
    intro x hx
    have hc : c.toNat < 256 := h c (by simp)
    rcases List.mem_cons.mp hx with h1 | h1
    · subst h1; exact hexDigit_mem_alphabet _ (by omega)
    · rcases List.mem_cons.mp h1 with h2 | h2
      · subst h2; exact hexDigit_mem_alphabet _ (by omega)
      · exact ih (fun y hy => h y (by simp [hy])) x h2

/-- C9: payload bytes embedded in the formatted send command are hex-encoded
exactly two uppercase characters per byte with no separators (the command
text ends in exactly that encoding, and decoding recovers the bytes); and
`receiveFrom` on the reply `0,"192.168.1.5",5683,3,68656C,0` hex-decodes the
payload field to the bytes `h`,`e`,`l` with a remaining count of zero. -/
theorem hex_wire_codec :
    (∀ data : List Char, (∀ c ∈ data, c.toNat < 256) →
        hexDecode (hexEncode data) = data ∧
          (hexEncode data).length = 2 * data.length ∧
          ∀ x ∈ hexEncode data, x ∈ "0123456789ABCDEF".data) ∧
      (∀ sock ip port payload, formatNSOST sock ip port payload =
        nsostHead sock ip port payload ++ hexEncode payload) ∧
      receiveFrom "0,\"192.168.1.5\",5683,3,68656C,0".data =
        some ("192.168.1.5".data, 5683, "hel".data, 0) := by
  refine ⟨fun data h =>
    ⟨hexDecode_hexEncode data h, hexEncode_length data, hexEncode_mem data h⟩,
    fun _ _ _ _ => rfl, by decide⟩

/-- Witness for C9 on the concrete payload `hel`: encode then decode is the
identity. -/
theorem hex_wire_codec_witness :
    (∀ c ∈ "hel".data, c.toNat < 256) ∧
      hexDecode (hexEncode "hel".data) = "hel".data :=
  ⟨by decide, (hex_wire_codec.1 "hel".data (by decide)).1⟩
